import Mathlib

/-!
Verification development for the panel-sizing engine of the
react-adjustable-panels repository.

The repository ships the `ResizeHandle` component (pointer and keyboard
drag sessions) in source form; the sizing utilities (`parseSize`,
`formatSize`, `calculateSizes`, `calculateSizesWithPixelConstraints`,
`throttle`) and the collapse logic of `PanelGroup` are present only
through their test suite, so those operations are modelled here from the
specification's description of them.  All pixel arithmetic is carried
out over `ℚ` (the implementation uses IEEE doubles; over the rationals
the "within floating-point tolerance" clauses become exact equalities).
-/

namespace RAP

/-- Size units of a parsed panel size specification. -/
inductive SizeUnit : Type
  | px
  | percent
  | auto
deriving DecidableEq

/-- Modelled from the spec: `SizeSpec` — a parsed size, `{ value, unit, original }`. -/
structure ParsedSize : Type where
  value : ℚ
  unit : SizeUnit
  original : String
deriving DecidableEq

/-- Modelled from the spec: the `InvalidSizeFormat` configuration error
raised by the parser (the implementation of `parseSize` is absent from
the sources; only its tests are present). -/
inductive ParseError : Type
  | invalidSizeFormat (input : String)
deriving DecidableEq

/-- `true` exactly on the ASCII digits `0`–`9`. -/
def isDigitChar (c : Char) : Bool :=
  decide ('0' ≤ c) && decide (c ≤ '9')

/-- Nonempty string of digits. -/
def isDigits (l : List Char) : Bool :=
  !l.isEmpty && l.all isDigitChar

/-- Unsigned numeric literal: `digits ("." digits)?`. -/
def numLitCore (l : List Char) : Bool :=
  let ds := l.takeWhile isDigitChar
  let rest := l.dropWhile isDigitChar
  !ds.isEmpty &&
    (rest.isEmpty || (decide (rest.headD ' ' = '.') && isDigits rest.tail))

/-- Numeric literal with an optional leading minus sign:
`"-"? digits ("." digits)?`. -/
def isNumLit (l : List Char) : Bool :=
  if l.headD ' ' = '-' then numLitCore l.tail else numLitCore l

/-- Numeric value of a list of digit characters. -/
def natOfDigits (l : List Char) : ℕ :=
  l.foldl (fun n c => 10 * n + (c.toNat - 48)) 0

/-- Value of an unsigned numeric literal `digits ("." digits)?`. -/
def numCore (l : List Char) : ℚ :=
  let ds := l.takeWhile isDigitChar
  let rest := l.dropWhile isDigitChar
  if rest.headD ' ' = '.' then
    (natOfDigits ds : ℚ) + (natOfDigits rest.tail : ℚ) / ((10 : ℚ) ^ rest.tail.length)
  else (natOfDigits ds : ℚ)

/-- Value of a signed numeric literal. -/
def numValue (l : List Char) : ℚ :=
  if l.headD ' ' = '-' then -(numCore l.tail) else numCore l

/-- Modelled from the spec: `parse(input | absent) → SizeSpec`.  Accepts
`<number>px`, `<number>%`, `auto`, `*`, or a bare number (implicit `px`
unit, with `original` recorded as the string plus `px` per the tests);
absent input parses to `auto`; everything else fails with
`InvalidSizeFormat`. -/
def parseSize (input : Option String) : Except ParseError ParsedSize :=
  match input with
  | none => .ok ⟨0, .auto, "auto"⟩
  | some s =>
    let cs := s.data
    if cs = "auto".data then .ok ⟨0, .auto, s⟩
    else if cs = ['*'] then .ok ⟨0, .auto, s⟩
    else
      let r := cs.reverse
      if r.take 2 = ['x', 'p'] then
        (if isNumLit ((r.drop 2).reverse)
          then .ok ⟨numValue ((r.drop 2).reverse), .px, s⟩
          else .error (.invalidSizeFormat s))
      else if r.take 1 = ['%'] then
        (if isNumLit ((r.drop 1).reverse)
          then .ok ⟨numValue ((r.drop 1).reverse), .percent, s⟩
          else .error (.invalidSizeFormat s))
      else if isNumLit cs then .ok ⟨numValue cs, .px, s ++ "px"⟩
      else .error (.invalidSizeFormat s)

/-- Modelled from the spec: the development-build diagnostic for a bare
numeric size (missing unit).  It fires exactly when a development build
takes the bare-number branch of `parseSize`; production builds never
warn. -/
def parseWarns (dev : Bool) (input : Option String) : Bool :=
  dev &&
    (match input with
      | some s => isNumLit s.data
      | none => false)

/-- Declarative form of a nonempty digit string. -/
def DigitsStr (l : List Char) : Prop :=
  l ≠ [] ∧ ∀ c ∈ l, isDigitChar c = true

/-- Declarative form of an unsigned numeric literal. -/
def NumBody (l : List Char) : Prop :=
  DigitsStr l ∨ ∃ ds fr, DigitsStr ds ∧ DigitsStr fr ∧ l = ds ++ '.' :: fr

/-- Declarative form of a signed numeric literal. -/
def NumLit (l : List Char) : Prop :=
  NumBody l ∨ ∃ l2, NumBody l2 ∧ l = '-' :: l2

/-- The size-specification string grammar of the spec:
`("-"? digits ("." digits)? ("px" | "%")?) | "auto" | "*"`. -/
def MatchesGrammar (s : String) : Prop :=
  s.data = "auto".data ∨ s.data = ['*'] ∨
    ∃ t : List Char, NumLit t ∧
      (s.data = t ∨ s.data = t ++ ['p', 'x'] ∨ s.data = t ++ ['%'])

/-- Digit characters of a natural number, most significant first
(fuel-driven). -/
def natDigitChars : ℕ → ℕ → List Char
  | 0, _ => []
  | fuel + 1, n =>
    if n = 0 then []
    else natDigitChars fuel (n / 10) ++ [Char.ofNat (48 + n % 10)]

/-- Decimal rendering of a natural number. -/
def renderNat (n : ℕ) : String :=
  if n = 0 then "0" else String.mk (natDigitChars n n)

/-- Decimal digits of the fractional part of a rational in `[0, 1)`
(fuel-driven, truncating). -/
def fracDigits : ℕ → ℚ → List Char
  | 0, _ => []
  | fuel + 1, q =>
    if q = 0 then []
    else
      let d : ℕ := (q * 10).num.natAbs / (q * 10).den
      Char.ofNat (48 + d) :: fracDigits fuel (q * 10 - (d : ℚ))

/-- Decimal rendering of a rational number (the model of JavaScript
number-to-string conversion for the finite decimals the engine
produces). -/
def renderRat (q : ℚ) : String :=
  let a : ℚ := if q < 0 then -q else q
  let ip : ℕ := a.num.natAbs / a.den
  let frac : ℚ := a - (ip : ℚ)
  (if q < 0 then "-" else "") ++ renderNat ip ++
    (if frac = 0 then "" else "." ++ String.mk (fracDigits 20 frac))

/-- Modelled from the spec: `format(value, unit) → string`, the left
inverse of `parse`; a non-finite value (modelled as `none`, since `ℚ`
has no NaN/Infinity) must render as `"auto"`. -/
def formatSize (value : Option ℚ) (unit : SizeUnit) : String :=
  match value, unit with
  | none, _ => "auto"
  | some _, .auto => "auto"
  | some v, .px => renderRat v ++ "px"
  | some v, .percent => renderRat v ++ "%"

instance {α β : Type} [DecidableEq α] [DecidableEq β] :
    DecidableEq (Except α β) := fun x y =>
  match x, y with
  | .ok a, .ok b =>
    match decEq a b with
    | isTrue h => isTrue (by rw [h])
    | isFalse h => isFalse (fun he => h (Except.ok.inj he))
  | .ok _, .error _ => isFalse (fun he => Except.noConfusion he)
  | .error _, .ok _ => isFalse (fun he => Except.noConfusion he)
  | .error a, .error b =>
    match decEq a b with
    | isTrue h => isTrue (by rw [h])
    | isFalse h => isFalse (fun he => h (Except.error.inj he))

/-- Modelled from the spec: `PixelConstraint` — per-panel resolved pixel
bounds, `{ minPx | absent, maxPx | absent }`. -/
structure PixelConstraint : Type where
  minPx : Option ℚ
  maxPx : Option ℚ
deriving DecidableEq

/-- Modelled from the spec: pixel value of a declared size given the
container size (`percent × containerSizePx / 100`; `auto` contributes
nothing). -/
def convertToPixels (p : ParsedSize) (containerSizePx : ℚ) : ℚ :=
  match p.unit with
  | .px => p.value
  | .percent => p.value * containerSizePx / 100
  | .auto => 0

/-- Modelled from the spec: clamping of a fixed panel's raw pixel size —
min first, then max (max wins if min > max). -/
def clampFixed (v : ℚ) (c : PixelConstraint) : ℚ :=
  let v1 :=
    match c.minPx with
    | some m => max v m
    | none => v
  match c.maxPx with
  | some m => min v1 m
  | none => v1

/-- Modelled from the spec: clamping of a flexible panel's share —
minimums take priority and the result never goes below the non-negative
floor `max (minPx, 0)`, then the max bound is applied. -/
def clampFlex (v : ℚ) (c : PixelConstraint) : ℚ :=
  let lo := max (c.minPx.getD 0) 0
  let v1 := max v lo
  match c.maxPx with
  | some m => min v1 m
  | none => v1

/-- One panel entry: declared size paired with its resolved constraint. -/
abbrev PanelEntry : Type := ParsedSize × PixelConstraint

/-- Whether a panel is flexible (`auto`). -/
def isFlex (p : PanelEntry) : Bool :=
  match p.1.unit with
  | .auto => true
  | _ => false

/-- Clamped pixel size of a fixed panel. -/
def fixedSizePx (containerSizePx : ℚ) (p : PanelEntry) : ℚ :=
  clampFixed (convertToPixels p.1 containerSizePx) p.2

/-- Sum of the clamped fixed panel sizes (flexible panels contribute 0). -/
def fixedSum (containerSizePx : ℚ) : List PanelEntry → ℚ
  | [] => 0
  | p :: ps =>
    (if isFlex p then 0 else fixedSizePx containerSizePx p) +
      fixedSum containerSizePx ps

/-- The active panels that one pass leaves unclamped, in order. -/
def unclampedAt (share : ℚ) : List PixelConstraint → List PixelConstraint
  | [] => []
  | c :: cs =>
    if clampFlex share c = share then c :: unclampedAt share cs
    else unclampedAt share cs

/-- Total space consumed by the panels one pass clamps. -/
def clampedConsumed (share : ℚ) : List PixelConstraint → ℚ
  | [] => 0
  | c :: cs =>
    (if clampFlex share c = share then 0 else clampFlex share c) +
      clampedConsumed share cs

/-- Modelled from the spec: reassembles one redistribution pass in
declaration order — panels whose clamped value differs from the equal
share keep that clamped value, the others take the recursively
redistributed values in order. -/
def mergeClamped (share : ℚ) : List PixelConstraint → List ℚ → List ℚ
  | [], _ => []
  | c :: cs, rs =>
    if clampFlex share c = share then
      rs.headD share :: mergeClamped share cs rs.tail
    else
      clampFlex share c :: mergeClamped share cs rs

/-- Modelled from the spec: iterative redistribution of the remaining
space among the flexible panels.  Each pass divides the residual space
equally, clamps every active panel to its own constraint, fixes the
clamped panels at their clamped values and repeats on the remaining
unclamped panels in declaration order until no clamp is triggered (one
remaining panel absorbs all residual space, subject to its own clamp).
The fuel argument (the number of active panels at the first call)
bounds the passes; each pass with a triggered clamp strictly shrinks
the active list. -/
def distShares : ℕ → List PixelConstraint → ℚ → List ℚ
  | _, [], _ => []
  | 0, l, r => l.map (fun c => clampFlex (r / l.length) c)
  | fuel + 1, l, r =>
    let share := r / l.length
    if ∀ c ∈ l, clampFlex share c = share then
      l.map (fun _ => share)
    else
      mergeClamped share l
        (distShares fuel (unclampedAt share l) (r - clampedConsumed share l))

/-- Reassembles the full layout: fixed panels keep their clamped sizes,
flexible panels consume the redistributed sizes in declaration order. -/
def mergeSizes (containerSizePx : ℚ) : List PanelEntry → List ℚ → List ℚ
  | [], _ => []
  | p :: ps, fs =>
    if isFlex p then
      fs.headD 0 :: mergeSizes containerSizePx ps fs.tail
    else
      fixedSizePx containerSizePx p :: mergeSizes containerSizePx ps fs

/-- Panel entries of a call: declared sizes zipped with constraints. -/
def panelPairs (specs : List ParsedSize) (cons : List PixelConstraint) :
    List PanelEntry :=
  specs.zip cons

/-- Constraints of the flexible panels, in declaration order. -/
def flexConsOf (specs : List ParsedSize) (cons : List PixelConstraint) :
    List PixelConstraint :=
  ((panelPairs specs cons).filter isFlex).map Prod.snd

/-- Space remaining for the flexible panels after the clamped fixed
panels are paid. -/
def remainingSpace (specs : List ParsedSize) (cons : List PixelConstraint)
    (containerSizePx : ℚ) : ℚ :=
  containerSizePx - fixedSum containerSizePx (panelPairs specs cons)

/-- Modelled from the spec: the core Layout Solver,
`solve(declaredSizes, containerSizePx, constraints) → LayoutResult`
(the implementations `calculateSizes` /
`calculateSizesWithPixelConstraints` are absent from the sources; only
their tests are present). -/
def solve (specs : List ParsedSize) (containerSizePx : ℚ)
    (cons : List PixelConstraint) : List ℚ :=
  let pairs := panelPairs specs cons
  let flexCons := flexConsOf specs cons
  if flexCons.isEmpty then
    pairs.map (fun p => fixedSizePx containerSizePx p)
  else
    mergeSizes containerSizePx pairs
      (distShares flexCons.length flexCons
        (remainingSpace specs cons containerSizePx))

/-- Development diagnostics of the Layout Solver: "under" when there is
no flexible panel and the fixed sizes miss the container size, "over"
when the flexible panels are left negative space. -/
inductive SolverDiagnostic : Type
  | underSum (sumPx containerSizePx : ℚ)
  | overSum (fixedSumPx containerSizePx : ℚ)
deriving DecidableEq

/-- Modelled from the spec: which diagnostic a solver call reports. -/
def solveDiagnostic (specs : List ParsedSize) (containerSizePx : ℚ)
    (cons : List PixelConstraint) : Option SolverDiagnostic :=
  let pairs := panelPairs specs cons
  let flexCons := flexConsOf specs cons
  let s := fixedSum containerSizePx pairs
  if flexCons.isEmpty then
    if s = containerSizePx then none else some (.underSum s containerSizePx)
  else
    if containerSizePx - s < 0 then some (.overSum s containerSizePx) else none

/-- Modelled from the spec: diagnostics are emitted on the development
channel only; production builds stay silent. -/
def emitDiagnostic (dev : Bool) (specs : List ParsedSize)
    (containerSizePx : ℚ) (cons : List PixelConstraint) :
    Option SolverDiagnostic :=
  if dev then solveDiagnostic specs containerSizePx cons else none

/-- Modelled from the spec: `calculateSizesWithPixelConstraints` — the
drag hot path, taking size strings and already-resolved pixel
constraints. -/
def calculateSizesWithPixelConstraints (sizes : List (Option String))
    (containerSizePx : ℚ) (cons : List PixelConstraint) :
    Except ParseError (List ℚ) := do
  let specs ← sizes.mapM parseSize
  pure (solve specs containerSizePx cons)

/-- Declared min/max constraint strings of one panel. -/
structure SizeConstraints : Type where
  minSize : Option String
  maxSize : Option String
deriving DecidableEq

/-- Modelled from the spec: the Constraint Resolver — converts one
possibly-absent bound into a pixel bound (absent and `auto` bounds
resolve to no clamp). -/
def resolveBound (containerSizePx : ℚ) (bound : Option String) :
    Except ParseError (Option ℚ) :=
  match bound with
  | none => .ok none
  | some s => do
    let p ← parseSize (some s)
    match p.unit with
    | .auto => pure none
    | _ => pure (some (convertToPixels p containerSizePx))

/-- Modelled from the spec: `resolve(constraint-spec, containerSizePx) →
PixelConstraint`. -/
def resolvePixelConstraint (containerSizePx : ℚ) (c : SizeConstraints) :
    Except ParseError PixelConstraint := do
  let mn ← resolveBound containerSizePx c.minSize
  let mx ← resolveBound containerSizePx c.maxSize
  pure ⟨mn, mx⟩

/-- Modelled from the spec: `calculateSizes` — parses the size strings,
resolves the declared constraints to pixel bounds, then runs the core
solver. -/
def calculateSizes (sizes : List (Option String)) (containerSizePx : ℚ)
    (cons : List SizeConstraints) : Except ParseError (List ℚ) := do
  let specs ← sizes.mapM parseSize
  let pcons ← cons.mapM (resolvePixelConstraint containerSizePx)
  pure (solve specs containerSizePx pcons)

/-- The sub-list of a layout result belonging to the flexible panels,
in declaration order. -/
def flexPart : List PanelEntry → List ℚ → List ℚ
  | [], _ => []
  | _ :: _, [] => []
  | p :: ps, s :: ss =>
    if isFlex p then s :: flexPart ps ss else flexPart ps ss

/-- Drag-session state of `ResizeHandle` (from
`src/unnamed/part_000`): the `isDraggingRef` and `startPosRef` refs. -/
structure DragState : Type where
  isDragging : Bool
  startPos : ℚ
deriving DecidableEq

/-- `handlePointerDown` (from `src/unnamed/part_000`): starts a drag
session, capturing the anchor pointer position. -/
def handlePointerDown (pos : ℚ) : DragState :=
  ⟨true, pos⟩

/-- `handlePointerMove` (from `src/unnamed/part_000`): delivers
`currentPos - startPosRef.current` to `onDrag` and deliberately leaves
`startPosRef` at the drag-start position. -/
def handlePointerMove (st : DragState) (currentPos : ℚ) :
    Option ℚ × DragState :=
  if st.isDragging then (some (currentPos - st.startPos), st) else (none, st)

/-- Modelled from the spec: the candidate sizes the group derives from a
cumulative drag delta — `before = startBefore + delta`,
`after = startAfter - delta`, always from the session-start sizes (the
`PanelGroup` implementation is absent from the sources). -/
def applyDragDelta (startSizes : ℚ × ℚ) (delta : ℚ) : ℚ × ℚ :=
  (startSizes.1 + delta, startSizes.2 - delta)

/-- Runs a sequence of pointer-move positions through a drag session:
each move recomputes the candidate pair from the anchored delta. -/
def runMoves (st : DragState) (startSizes : ℚ × ℚ) (positions : List ℚ) :
    ℚ × ℚ :=
  positions.foldl
    (fun acc pos =>
      match (handlePointerMove st pos).1 with
      | some d => applyDragDelta startSizes d
      | none => acc)
    startSizes

/-- Layout direction of a panel group. -/
inductive Direction : Type
  | horizontal
  | vertical
deriving DecidableEq

/-- The keys the keyboard handler distinguishes. -/
inductive KeyName : Type
  | arrowLeft
  | arrowRight
  | arrowUp
  | arrowDown
  | otherKey
deriving DecidableEq

/-- A keyboard event: pressed key and the Shift modifier flag. -/
structure KeyEvent : Type where
  key : KeyName
  shiftKey : Bool
deriving DecidableEq

/-- The drag callbacks a resize handle can invoke. -/
inductive DragCallback : Type
  | dragStart
  | drag (delta : ℤ)
  | dragEnd
deriving DecidableEq

/-- Step size of a key press (from `src/unnamed/part_000`): 50 with
Shift, 10 otherwise. -/
def keyStep (e : KeyEvent) : ℤ :=
  if e.shiftKey then 50 else 10

/-- Signed delta of a key press (from `src/unnamed/part_000`
`handleKeyDown`): decrement arrow gives `-step`, increment arrow gives
`step`, anything else 0. -/
def keyDelta (direction : Direction) (e : KeyEvent) : ℤ :=
  let isHorizontal := direction = Direction.horizontal
  if (isHorizontal ∧ e.key = .arrowLeft) ∨ (¬isHorizontal ∧ e.key = .arrowUp) then
    -keyStep e
  else if (isHorizontal ∧ e.key = .arrowRight) ∨
      (¬isHorizontal ∧ e.key = .arrowDown) then
    keyStep e
  else 0

/-- Observable outcome of one `handleKeyDown` invocation: the drag
callbacks invoked in order, whether `preventDefault` was called, and
the `isDraggingRef` value afterwards. -/
structure KeyDownResult : Type where
  callbacks : List DragCallback
  preventedDefault : Bool
  isDraggingAfter : Bool
deriving DecidableEq

/-- `handleKeyDown` (from `src/unnamed/part_000`): a nonzero delta
triggers `preventDefault` and the synchronous
`onDragStart; onDrag(delta); onDragEnd` triple; the handler never
touches `isDraggingRef`. -/
def handleKeyDown (direction : Direction) (e : KeyEvent)
    (isDragging : Bool) : KeyDownResult :=
  let delta := keyDelta direction e
  if delta ≠ 0 then ⟨[.dragStart, .drag delta, .dragEnd], true, isDragging⟩
  else ⟨[], false, isDragging⟩

/-- An arrow key along the handle's direction axis. -/
def AlignedArrow (direction : Direction) (k : KeyName) : Prop :=
  (direction = .horizontal ∧ (k = .arrowLeft ∨ k = .arrowRight)) ∨
    (direction = .vertical ∧ (k = .arrowUp ∨ k = .arrowDown))

/-- A collapsible panel: resolved `minPx` and declared
`collapsedSizePx`. -/
structure CollapsePanel : Type where
  minPx : ℚ
  collapsedSizePx : ℚ
deriving DecidableEq

/-- Modelled from the spec: the collapse threshold — the midpoint
between 0 and the resolved `minSize`. -/
def collapseThreshold (p : CollapsePanel) : ℚ :=
  p.minPx / 2

/-- Modelled from the spec: one collapse/expand transition of the
Drag/Collapse session (the `PanelGroup` implementation is absent from
the sources).  A candidate size at or below the threshold collapses
the panel, one above it expands it; the second component is the
collapse-state-changed notification, which fires only on an actual
transition. -/
def collapseStep (p : CollapsePanel) (collapsed : Bool) (candidate : ℚ) :
    Bool × Bool :=
  let newCollapsed : Bool := decide (candidate ≤ collapseThreshold p)
  (newCollapsed, newCollapsed != collapsed)

/-- Modelled from the spec: the effective size fed to the Solver —
pinned to `collapsedSizePx` while collapsed. -/
def effectiveSize (p : CollapsePanel) (collapsed : Bool) (candidate : ℚ) : ℚ :=
  if collapsed then p.collapsedSizePx else candidate

/-- State of the throttle rate limiter: time of the last actual
invocation (if any) and the most recent coalesced pending call. -/
structure ThrottleState (α : Type) : Type where
  lastInvoke : Option ℕ
  pending : Option α
deriving DecidableEq

/-- Events the throttle reacts to: a call with arguments at a time, or
the wait window elapsing (the trailing timer firing) at a time. -/
inductive ThrottleEvent (α : Type) : Type
  | call (t : ℕ) (a : α)
  | elapse (t : ℕ)
deriving DecidableEq

/-- Modelled from the spec: one transition of `throttle(fn, wait)` (the
implementation is absent from the sources; only its tests are present).
The second component lists the invocations of `fn` the event causes.
A first call, or a call past the window, invokes synchronously; a call
inside the window is coalesced into `pending` (overwriting an older
pending call); the elapse of the window invokes the most recent
pending call exactly once. -/
def throttleStep {α : Type} (wait : ℕ) (s : ThrottleState α) :
    ThrottleEvent α → ThrottleState α × List α
  | .call t a =>
    match s.lastInvoke with
    | none => (⟨some t, none⟩, [a])
    | some t0 =>
      if t0 + wait ≤ t then (⟨some t, none⟩, [a])
      else (⟨some t0, some a⟩, [])
  | .elapse t =>
    match s.lastInvoke, s.pending with
    | some t0, some a =>
      if t0 + wait ≤ t then (⟨some t, none⟩, [a]) else (s, [])
    | some t0, none => (⟨some t0, none⟩, [])
    | none, p => (⟨none, p⟩, [])

/-- Runs a list of throttle events, collecting every invocation of the
throttled function in order. -/
def throttleRun {α : Type} (wait : ℕ) :
    ThrottleState α → List (ThrottleEvent α) → ThrottleState α × List α
  | s, [] => (s, [])
  | s, e :: es =>
    let p1 := throttleStep wait s e
    let p2 := throttleRun wait p1.1 es
    (p2.1, p1.2 ++ p2.2)

end RAP

namespace RAP

lemma mergeClamped_length (share : ℚ) (cs : List PixelConstraint) (rs : List ℚ) :
    (mergeClamped share cs rs).length = cs.length := by
  induction cs generalizing rs with
  | nil => simp [mergeClamped]
  | cons c cs ih =>
    by_cases h : clampFlex share c = share <;> simp [mergeClamped, h, ih]

lemma map_const_of_forall {α β : Type} (l : List α) (f : α → β) (b : β)
    (h : ∀ a ∈ l, f a = b) : l.map f = List.replicate l.length b := by
  induction l with
  | nil => simp
  | cons a l ih =>
    simp only [List.map_cons, List.length_cons, List.replicate_succ, List.cons.injEq]
    exact ⟨h a (List.mem_cons_self a l), ih (fun x hx => h x (List.mem_cons_of_mem a hx))⟩

lemma distShares_succ (fuel : ℕ) (c : PixelConstraint) (cs : List PixelConstraint) (r : ℚ) :
    distShares (fuel + 1) (c :: cs) r =
      if ∀ x ∈ c :: cs, clampFlex (r / (c :: cs).length) x = r / (c :: cs).length then
        (c :: cs).map (fun _ => r / (c :: cs).length)
      else
        mergeClamped (r / (c :: cs).length) (c :: cs)
          (distShares fuel (unclampedAt (r / (c :: cs).length) (c :: cs))
            (r - clampedConsumed (r / (c :: cs).length) (c :: cs))) := rfl

lemma distShares_noclamp (fuel : ℕ) (l : List PixelConstraint) (r : ℚ)
    (h : ∀ c ∈ l, clampFlex (r / l.length) c = r / l.length) :
    distShares fuel l r = List.replicate l.length (r / l.length) := by
  cases l with
  | nil => cases fuel <;> simp [distShares]
  | cons c cs =>
    cases fuel with
    | zero => exact map_const_of_forall _ _ _ h
    | succ fuel =>
      rw [distShares_succ, if_pos h]
      exact map_const_of_forall _ _ _ (fun a _ => rfl)

lemma distShares_length (fuel : ℕ) (l : List PixelConstraint) (r : ℚ) :
    (distShares fuel l r).length = l.length := by
  cases l with
  | nil => cases fuel <;> simp [distShares]
  | cons c cs =>
    cases fuel with
    | zero => simp [distShares]
    | succ fuel =>
      rw [distShares_succ]
      by_cases h : ∀ x ∈ c :: cs, clampFlex (r / (c :: cs).length) x = r / (c :: cs).length
      · rw [if_pos h]; simp
      · rw [if_neg h]; exact mergeClamped_length _ _ _

lemma unclampedAt_of_all (share : ℚ) (cs : List PixelConstraint)
    (h : ∀ c ∈ cs, clampFlex share c = share) : unclampedAt share cs = cs := by
  induction cs with
  | nil => rfl
  | cons c cs ih =>
    rw [unclampedAt, if_pos (h c (List.mem_cons_self c cs))]
    rw [ih (fun x hx => h x (List.mem_cons_of_mem c hx))]

lemma clampedConsumed_of_all (share : ℚ) (cs : List PixelConstraint)
    (h : ∀ c ∈ cs, clampFlex share c = share) : clampedConsumed share cs = 0 := by
  induction cs with
  | nil => rfl
  | cons c cs ih =>
    rw [clampedConsumed, if_pos (h c (List.mem_cons_self c cs))]
    rw [ih (fun x hx => h x (List.mem_cons_of_mem c hx))]
    ring

lemma mergeClamped_of_unclamped (share : ℚ) :
    ∀ (cs : List PixelConstraint) (rs : List ℚ),
      (∀ c ∈ cs, clampFlex share c = share) → rs.length = cs.length →
        mergeClamped share cs rs = rs := by
  intro cs
  induction cs with
  | nil =>
    intro rs _ hlen
    cases rs with
    | nil => rfl
    | cons r rs => simp at hlen
  | cons c cs ih =>
    intro rs h hlen
    cases rs with
    | nil => simp at hlen
    | cons r rs =>
      rw [mergeClamped, if_pos (h c (List.mem_cons_self c cs))]
      simp only [List.headD_cons, List.tail_cons]
      rw [ih rs (fun x hx => h x (List.mem_cons_of_mem c hx)) (by simpa using hlen)]

lemma clampFlex_free (v : ℚ) (h : 0 ≤ v) : clampFlex v ⟨none, none⟩ = v := by
  simp [clampFlex, h]

lemma clampFlex_maxed (v m : ℚ) (hm : m ≤ v) :
    clampFlex v ⟨none, some m⟩ = m := by
  simp [clampFlex]
  exact Or.inl hm

end RAP

namespace RAP

lemma mergeSizes_sum (cont : ℚ) :
    ∀ (pairs : List PanelEntry) (fs : List ℚ),
      fs.length = (pairs.filter isFlex).length →
        (mergeSizes cont pairs fs).sum = fixedSum cont pairs + fs.sum := by
  intro pairs
  induction pairs with
  | nil =>
    intro fs hlen
    simp at hlen
    subst hlen
    simp [mergeSizes, fixedSum]
  | cons p ps ih =>
    intro fs hlen
    by_cases hf : isFlex p
    · rw [List.filter_cons_of_pos hf] at hlen
      cases fs with
      | nil => simp at hlen
      | cons f fs =>
        rw [mergeSizes, if_pos hf]
        simp only [List.headD_cons, List.tail_cons, List.sum_cons]
        rw [ih fs (by simpa using hlen)]
        rw [fixedSum, if_pos hf]
        ring
    · rw [List.filter_cons_of_neg hf] at hlen
      rw [mergeSizes, if_neg hf]
      simp only [List.sum_cons]
      rw [ih fs hlen]
      rw [fixedSum, if_neg hf]
      ring

lemma flexPart_mergeSizes (cont : ℚ) :
    ∀ (pairs : List PanelEntry) (fs : List ℚ),
      fs.length = (pairs.filter isFlex).length →
        flexPart pairs (mergeSizes cont pairs fs) = fs := by
  intro pairs
  induction pairs with
  | nil =>
    intro fs hlen
    simp at hlen
    subst hlen
    simp [flexPart]
  | cons p ps ih =>
    intro fs hlen
    by_cases hf : isFlex p
    · rw [List.filter_cons_of_pos hf] at hlen
      cases fs with
      | nil => simp at hlen
      | cons f fs =>
        rw [mergeSizes, if_pos hf]
        simp only [List.headD_cons, List.tail_cons]
        rw [flexPart, if_pos hf]
        rw [ih fs (by simpa using hlen)]
    · rw [List.filter_cons_of_neg hf] at hlen
      rw [mergeSizes, if_neg hf]
      rw [flexPart, if_neg hf]
      exact ih fs hlen

lemma flexConsOf_length (specs : List ParsedSize) (cons : List PixelConstraint) :
    (flexConsOf specs cons).length = ((panelPairs specs cons).filter isFlex).length := by
  simp [flexConsOf]

/-- Claim C1 (amended): with at least one flexible panel, non-negative
resolved bounds, and no flexible panel's bounds clamping its equal
share of the remaining space, the solved sizes sum to the container
size. -/
theorem solve_sum_invariant (specs : List ParsedSize)
    (cons : List PixelConstraint) (containerSizePx : ℚ)
    (hflex : flexConsOf specs cons ≠ [])
    (hbounds : ∀ c ∈ cons, (∀ m ∈ c.minPx, 0 ≤ m) ∧ (∀ m ∈ c.maxPx, 0 ≤ m))
    (hnoclamp : ∀ c ∈ flexConsOf specs cons,
      clampFlex
          (remainingSpace specs cons containerSizePx /
            (flexConsOf specs cons).length) c
        = remainingSpace specs cons containerSizePx /
            (flexConsOf specs cons).length) :
    (solve specs containerSizePx cons).sum = containerSizePx := by
  have hne : ¬((flexConsOf specs cons).isEmpty = true) := by
    simpa [List.isEmpty_iff] using hflex
  rw [solve]
  rw [if_neg hne]
  rw [distShares_noclamp _ _ _ hnoclamp]
  rw [mergeSizes_sum _ _ _ (by simp [flexConsOf_length])]
  rw [List.sum_replicate, nsmul_eq_mul]
  have hn : ((flexConsOf specs cons).length : ℚ) ≠ 0 := by
    have : (flexConsOf specs cons).length ≠ 0 := by
      simpa [List.length_eq_zero] using hflex
    exact_mod_cast this
  rw [mul_div_cancel₀ _ hn]
  rw [remainingSpace]
  ring

end RAP

namespace RAP

lemma clampFlex_capped (v m : ℚ) (mno : Option ℚ)
    (hlo : (mno.getD 0) ⊔ 0 ≤ m) (hm : m ≤ v) :
    clampFlex v ⟨mno, some m⟩ = m := by
  show min (max v (max (mno.getD 0) 0)) m = m
  rw [max_eq_left (le_trans hlo hm)]
  exact min_eq_right hm

lemma unclampedAt_append (share : ℚ) (l1 l2 : List PixelConstraint) :
    unclampedAt share (l1 ++ l2) = unclampedAt share l1 ++ unclampedAt share l2 := by
  induction l1 with
  | nil => rfl
  | cons c cs ih =>
    rw [List.cons_append, unclampedAt, unclampedAt]
    by_cases h : clampFlex share c = share
    · rw [if_pos h, if_pos h, ih, List.cons_append]
    · rw [if_neg h, if_neg h, ih]

lemma clampedConsumed_append (share : ℚ) (l1 l2 : List PixelConstraint) :
    clampedConsumed share (l1 ++ l2)
      = clampedConsumed share l1 + clampedConsumed share l2 := by
  induction l1 with
  | nil => rw [List.nil_append, clampedConsumed]; ring
  | cons c cs ih =>
    rw [List.cons_append, clampedConsumed, clampedConsumed, ih]
    ring

lemma distShares_succ_ne (fuel : ℕ) (l : List PixelConstraint) (r : ℚ)
    (hne : l ≠ []) :
    distShares (fuel + 1) l r =
      if ∀ x ∈ l, clampFlex (r / l.length) x = r / l.length then
        l.map (fun _ => r / l.length)
      else
        mergeClamped (r / l.length) l
          (distShares fuel (unclampedAt (r / l.length) l)
            (r - clampedConsumed (r / l.length) l)) := by
  cases l with
  | nil => exact absurd rfl hne
  | cons c cs => exact distShares_succ fuel c cs r

lemma mergeClamped_one_clamped (share : ℚ) (c : PixelConstraint)
    (hc : ¬clampFlex share c = share) :
    ∀ (pre post : List PixelConstraint) (rs1 rs2 : List ℚ),
      (∀ x ∈ pre, clampFlex share x = share) →
      (∀ x ∈ post, clampFlex share x = share) →
      rs1.length = pre.length → rs2.length = post.length →
      mergeClamped share (pre ++ c :: post) (rs1 ++ rs2)
        = rs1 ++ clampFlex share c :: rs2 := by
  intro pre
  induction pre with
  | nil =>
    intro post rs1 rs2 _ hpost h1 h2
    cases rs1 with
    | nil =>
      rw [List.nil_append, List.nil_append, List.nil_append]
      rw [mergeClamped, if_neg hc]
      rw [mergeClamped_of_unclamped share post rs2 hpost h2]
    | cons r rs => simp at h1
  | cons p pre ih =>
    intro post rs1 rs2 hpre hpost h1 h2
    cases rs1 with
    | nil => simp at h1
    | cons r rs1 =>
      rw [List.cons_append, List.cons_append, mergeClamped]
      rw [if_pos (hpre p (List.mem_cons_self p pre))]
      rw [List.cons_append, List.headD_cons, List.tail_cons]
      rw [ih post rs1 rs2 (fun x hx => hpre x (List.mem_cons_of_mem p hx)) hpost
        (by simpa using h1) h2]

/-- Claim C2 (amended): a flexible panel whose equal share of the
remaining space exceeds its max bound is clamped to it — at any
position in the flexible declaration order, and regardless of a min
bound not exceeding that max — and when the remaining flexible panels
are unconstrained they absorb the freed excess equally, in declaration
order, with the total still summing to the container size. -/
theorem solve_redistribution (specs : List ParsedSize)
    (cons : List PixelConstraint) (containerSizePx m : ℚ) (mno : Option ℚ)
    (pre post : List PixelConstraint)
    (hshape : flexConsOf specs cons = pre ++ ⟨mno, some m⟩ :: post)
    (hpre : ∀ c ∈ pre, c = (⟨none, none⟩ : PixelConstraint))
    (hpost : ∀ c ∈ post, c = (⟨none, none⟩ : PixelConstraint))
    (hothers : 0 < pre.length + post.length)
    (hmin : (mno.getD 0) ⊔ 0 ≤ m)
    (hlt : m < remainingSpace specs cons containerSizePx /
      ((pre.length + post.length + 1 : ℕ) : ℚ)) :
    flexPart (panelPairs specs cons) (solve specs containerSizePx cons)
        = List.replicate pre.length
            ((remainingSpace specs cons containerSizePx - m) /
              ((pre.length + post.length : ℕ) : ℚ))
          ++ m :: List.replicate post.length
            ((remainingSpace specs cons containerSizePx - m) /
              ((pre.length + post.length : ℕ) : ℚ))
      ∧ (solve specs containerSizePx cons).sum = containerSizePx := by
  set R := remainingSpace specs cons containerSizePx with hR
  set k := pre.length + post.length with hk
  set cc : PixelConstraint := ⟨mno, some m⟩ with hcc
  set v : ℚ := (R - m) / ((k : ℕ) : ℚ) with hv
  have hkQ : (0 : ℚ) < (k : ℚ) := by exact_mod_cast hothers
  have hm0 : 0 ≤ m := le_trans (le_max_right _ 0) hmin
  have hlen_flex : (pre ++ cc :: post).length = k + 1 := by
    simp [hk]
    omega
  have hsharepos : 0 < R / ((k + 1 : ℕ) : ℚ) := lt_of_le_of_lt hm0 hlt
  have hRpos : 0 < R := by
    have hn1 : (0 : ℚ) < ((k + 1 : ℕ) : ℚ) := by positivity
    exact ((div_pos_iff.mp hsharepos).resolve_right (by
      intro h
      exact absurd hn1 (not_lt.mpr (le_of_lt h.2)))).1
  have hshle : R / ((k + 1 : ℕ) : ℚ) ≤ R := by
    apply div_le_self (le_of_lt hRpos)
    exact_mod_cast Nat.le_add_left 1 k
  have hmR : 0 ≤ R - m := by linarith
  have hclamp : clampFlex (R / ((k + 1 : ℕ) : ℚ)) cc = m :=
    clampFlex_capped _ m mno hmin (le_of_lt hlt)
  have hclampne : ¬clampFlex (R / ((k + 1 : ℕ) : ℚ)) cc = R / ((k + 1 : ℕ) : ℚ) := by
    rw [hclamp]
    exact ne_of_lt hlt
  have hfreeall : ∀ c ∈ pre ++ post,
      clampFlex (R / ((k + 1 : ℕ) : ℚ)) c = R / ((k + 1 : ℕ) : ℚ) := by
    intro c hc
    rcases List.mem_append.mp hc with h | h
    · rw [hpre c h]
      exact clampFlex_free _ (le_of_lt hsharepos)
    · rw [hpost c h]
      exact clampFlex_free _ (le_of_lt hsharepos)
  have hnotall : ¬(∀ c ∈ pre ++ cc :: post,
      clampFlex (R / ((pre ++ cc :: post).length : ℚ)) c
        = R / ((pre ++ cc :: post).length : ℚ)) := by
    rw [hlen_flex]
    intro hall
    exact hclampne (hall cc (List.mem_append.mpr (Or.inr (List.mem_cons_self _ _))))
  have huncl : unclampedAt (R / ((k + 1 : ℕ) : ℚ)) (pre ++ cc :: post)
      = pre ++ post := by
    rw [unclampedAt_append]
    rw [unclampedAt_of_all _ pre (fun c hc => hfreeall c (List.mem_append.mpr (Or.inl hc)))]
    rw [unclampedAt, if_neg hclampne]
    rw [unclampedAt_of_all _ post (fun c hc => hfreeall c (List.mem_append.mpr (Or.inr hc)))]
  have hcons2 : clampedConsumed (R / ((k + 1 : ℕ) : ℚ)) (pre ++ cc :: post) = m := by
    rw [clampedConsumed_append]
    rw [clampedConsumed_of_all _ pre (fun c hc => hfreeall c (List.mem_append.mpr (Or.inl hc)))]
    rw [clampedConsumed, if_neg hclampne, hclamp]
    rw [clampedConsumed_of_all _ post (fun c hc => hfreeall c (List.mem_append.mpr (Or.inr hc)))]
    ring
  have hlen_k : (pre ++ post).length = k := by
    simp [hk]
  have hdistrest : distShares k (pre ++ post) (R - m) = List.replicate k v := by
    have hfree2 : ∀ c ∈ pre ++ post,
        clampFlex ((R - m) / ((pre ++ post).length : ℚ)) c
          = (R - m) / ((pre ++ post).length : ℚ) := by
      intro c hc
      have hcval : c = (⟨none, none⟩ : PixelConstraint) := by
        rcases List.mem_append.mp hc with h | h
        · exact hpre c h
        · exact hpost c h
      rw [hcval]
      apply clampFlex_free
      apply div_nonneg hmR
      rw [hlen_k]
      exact le_of_lt hkQ
    have := distShares_noclamp k (pre ++ post) (R - m) hfree2
    rw [hlen_k] at this
    exact this
  have hdist : distShares (k + 1) (pre ++ cc :: post) R
      = List.replicate pre.length v ++ m :: List.replicate post.length v := by
    rw [distShares_succ_ne k (pre ++ cc :: post) R (by simp)]
    rw [hlen_flex]
    rw [if_neg (by rw [hlen_flex] at hnotall; exact hnotall)]
    rw [huncl, hcons2, hdistrest]
    rw [hk, List.replicate_add]
    rw [mergeClamped_one_clamped _ cc hclampne pre post _ _
      (fun c hc => hfreeall c (List.mem_append.mpr (Or.inl hc)))
      (fun c hc => hfreeall c (List.mem_append.mpr (Or.inr hc)))
      (by simp) (by simp)]
    rw [hclamp]
  have hsolve : solve specs containerSizePx cons
      = mergeSizes containerSizePx (panelPairs specs cons)
          (List.replicate pre.length v ++ m :: List.replicate post.length v) := by
    rw [solve]
    rw [if_neg (by simp [hshape])]
    rw [hshape, ← hR]
    rw [show (pre ++ cc :: post).length = k + 1 from hlen_flex]
    rw [hdist]
  have hflen : (List.replicate pre.length v ++ m :: List.replicate post.length v).length
      = ((panelPairs specs cons).filter isFlex).length := by
    rw [← flexConsOf_length, hshape]
    simp [hk]
  constructor
  · rw [hsolve]
    exact flexPart_mergeSizes _ _ _ hflen
  · rw [hsolve]
    rw [mergeSizes_sum _ _ _ hflen]
    rw [List.sum_append, List.sum_cons, List.sum_replicate, List.sum_replicate]
    simp only [nsmul_eq_mul]
    have hkv : ((pre.length : ℚ)) * v + ((post.length : ℚ)) * v = R - m := by
      have : ((pre.length : ℚ)) * v + ((post.length : ℚ)) * v = (k : ℚ) * v := by
        rw [hk]
        push_cast
        ring
      rw [this, hv]
      exact mul_div_cancel₀ _ (ne_of_gt hkQ)
    have hgoal : fixedSum containerSizePx (panelPairs specs cons)
        + ((pre.length : ℚ) * v + (m + (post.length : ℚ) * v)) = containerSizePx := by
      have : (pre.length : ℚ) * v + (m + (post.length : ℚ) * v)
          = m + ((pre.length : ℚ) * v + (post.length : ℚ) * v) := by ring
      rw [this, hkv, hR, remainingSpace]
      ring
    exact hgoal

end RAP

namespace RAP

/-- Claim C1, counterexample: fixed sizes `600px + 500px` plus one
`auto` panel in a `1000px` container — at least one flexible panel and
non-negative resolved bounds, yet the returned sizes sum to `1100`,
not the container size. -/
theorem solve_sum_counterexample :
    calculateSizesWithPixelConstraints [some "600px", some "500px", some "auto"]
        1000 [⟨some 0, none⟩, ⟨some 0, none⟩, ⟨some 0, none⟩]
      = .ok [600, 500, 0]
    ∧ ([600, 500, 0] : List ℚ).sum = 1100 ∧ (1100 : ℚ) ≠ 1000 := by
  refine ⟨?_, by norm_num, by norm_num⟩
  have h6 : parseSize (some "600px") = .ok ⟨600, .px, "600px"⟩ := by decide
  have h5 : parseSize (some "500px") = .ok ⟨500, .px, "500px"⟩ := by decide
  have ha : parseSize (some "auto") = .ok ⟨0, .auto, "auto"⟩ := by decide
  rw [calculateSizesWithPixelConstraints]
  rw [show ([some "600px", some "500px", some "auto"].mapM parseSize)
      = .ok [⟨600, .px, "600px"⟩, ⟨500, .px, "500px"⟩, ⟨0, .auto, "auto"⟩] from by
    simp [List.mapM, List.mapM.loop, h6, h5, ha]; rfl]
  show Except.ok _ = _
  norm_num [solve, panelPairs, flexConsOf, remainingSpace, fixedSum, fixedSizePx,
    convertToPixels, clampFixed, clampFlex, isFlex, distShares, mergeClamped,
    unclampedAt, clampedConsumed, mergeSizes, List.zip, List.zipWith, List.filter]

/-- Claim C1, witness: a `200px` panel plus two unconstrained `auto`
panels in a `1000px` container satisfy the amended hypotheses and the
solved sizes sum to `1000`. -/
theorem solve_sum_invariant_witness :
    flexConsOf [⟨200, .px, "200px"⟩, ⟨0, .auto, "auto"⟩, ⟨0, .auto, "auto"⟩]
        [⟨none, none⟩, ⟨none, none⟩, ⟨none, none⟩] ≠ []
      ∧ (solve [⟨200, .px, "200px"⟩, ⟨0, .auto, "auto"⟩, ⟨0, .auto, "auto"⟩] 1000
          [⟨none, none⟩, ⟨none, none⟩, ⟨none, none⟩]).sum = 1000 := by
  refine ⟨by decide, solve_sum_invariant _ _ _ (by decide) (by decide) ?_⟩
  intro c hc
  have hfc : flexConsOf [⟨200, .px, "200px"⟩, ⟨0, .auto, "auto"⟩, ⟨0, .auto, "auto"⟩]
      [(⟨none, none⟩ : PixelConstraint), ⟨none, none⟩, ⟨none, none⟩]
      = [⟨none, none⟩, ⟨none, none⟩] := by decide
  rw [hfc] at hc
  have hc' : c = (⟨none, none⟩ : PixelConstraint) := by
    simp at hc
    exact hc
  subst hc'
  rw [hfc]
  norm_num [remainingSpace, panelPairs, fixedSum, fixedSizePx, convertToPixels,
    clampFixed, isFlex, clampFlex, List.zip, List.zipWith]

/-- Claim C2, counterexample: two `auto` panels whose equal share (500)
exceeds both `maxPx` bounds (100) — both clamp, no unclamped panel
remains, and the returned sizes sum to 200, not the container size. -/
theorem solve_redistribution_counterexample :
    (100 : ℚ) < remainingSpace [⟨0, .auto, "auto"⟩, ⟨0, .auto, "auto"⟩]
        [⟨some 0, some 100⟩, ⟨some 0, some 100⟩] 1000 / 2
      ∧ solve [⟨0, .auto, "auto"⟩, ⟨0, .auto, "auto"⟩] 1000
          [⟨some 0, some 100⟩, ⟨some 0, some 100⟩] = [100, 100]
      ∧ ([100, 100] : List ℚ).sum ≠ 1000 := by
  refine ⟨?_, ?_, by norm_num⟩
  · norm_num [remainingSpace, panelPairs, fixedSum, fixedSizePx, convertToPixels,
      clampFixed, isFlex, List.zip, List.zipWith]
  · norm_num [solve, panelPairs, flexConsOf, remainingSpace, fixedSum, fixedSizePx,
      convertToPixels, clampFixed, clampFlex, isFlex, distShares, mergeClamped,
      unclampedAt, clampedConsumed, mergeSizes, List.zip, List.zipWith, List.filter]

/-- Claim C2, witness: a `200px` panel plus three `auto` panels, the
middle `auto` panel carrying `minPx = 50` and capped at `200px` below
its equal share of 800/3 — it is clamped to 200 and the other two
absorb 300 each, summing to the container size. -/
theorem solve_redistribution_witness :
    ((some (50 : ℚ)).getD 0 ⊔ 0 ≤ (200 : ℚ))
    ∧ (0 : ℕ) < 1 + 1
    ∧ flexPart
        (panelPairs [⟨200, .px, "200px"⟩, ⟨0, .auto, "auto"⟩, ⟨0, .auto, "auto"⟩, ⟨0, .auto, "auto"⟩]
          [⟨none, none⟩, ⟨none, none⟩, ⟨some 50, some 200⟩, ⟨none, none⟩])
        (solve [⟨200, .px, "200px"⟩, ⟨0, .auto, "auto"⟩, ⟨0, .auto, "auto"⟩, ⟨0, .auto, "auto"⟩]
          1000 [⟨none, none⟩, ⟨none, none⟩, ⟨some 50, some 200⟩, ⟨none, none⟩])
        = [300, 200, 300]
    ∧ (solve [⟨200, .px, "200px"⟩, ⟨0, .auto, "auto"⟩, ⟨0, .auto, "auto"⟩, ⟨0, .auto, "auto"⟩]
        1000 [⟨none, none⟩, ⟨none, none⟩, ⟨some 50, some 200⟩, ⟨none, none⟩]).sum = 1000 := by
  have hrem : remainingSpace
      [⟨200, .px, "200px"⟩, ⟨0, .auto, "auto"⟩, ⟨0, .auto, "auto"⟩, ⟨0, .auto, "auto"⟩]
      [⟨none, none⟩, ⟨none, none⟩, ⟨some 50, some 200⟩, ⟨none, none⟩] 1000 = 800 := by
    norm_num [remainingSpace, panelPairs, fixedSum, fixedSizePx, convertToPixels,
      clampFixed, isFlex, List.zip, List.zipWith]
  have h := solve_redistribution
    [⟨200, .px, "200px"⟩, ⟨0, .auto, "auto"⟩, ⟨0, .auto, "auto"⟩, ⟨0, .auto, "auto"⟩]
    [⟨none, none⟩, ⟨none, none⟩, ⟨some 50, some 200⟩, ⟨none, none⟩]
    1000 200 (some 50) [⟨none, none⟩] [⟨none, none⟩]
    (by decide) (by decide) (by decide) (by norm_num)
    (by norm_num)
    (by rw [hrem]; norm_num)
  refine ⟨by norm_num, by norm_num, ?_, h.2⟩
  have h1 := h.1
  rw [hrem] at h1
  norm_num at h1
  convert h1 using 2

/-- Claim C5: fixed sizes `600px + 500px` plus one `auto` panel in a
`1000px` container emit the over-sum development diagnostic and the
`auto` panel is clamped to its non-negative floor, every returned size
being non-negative. -/
theorem solve_oversum_nonneg_floor :
    emitDiagnostic true [⟨600, .px, "600px"⟩, ⟨500, .px, "500px"⟩, ⟨0, .auto, "auto"⟩]
        1000 [⟨none, none⟩, ⟨none, none⟩, ⟨none, none⟩]
      = some (.overSum 1100 1000)
    ∧ solve [⟨600, .px, "600px"⟩, ⟨500, .px, "500px"⟩, ⟨0, .auto, "auto"⟩] 1000
        [⟨none, none⟩, ⟨none, none⟩, ⟨none, none⟩] = [600, 500, 0]
    ∧ ∀ x ∈ solve [⟨600, .px, "600px"⟩, ⟨500, .px, "500px"⟩, ⟨0, .auto, "auto"⟩] 1000
        [⟨none, none⟩, ⟨none, none⟩, ⟨none, none⟩], 0 ≤ x := by
  have hs : solve [⟨600, .px, "600px"⟩, ⟨500, .px, "500px"⟩, ⟨0, .auto, "auto"⟩] 1000
      [(⟨none, none⟩ : PixelConstraint), ⟨none, none⟩, ⟨none, none⟩] = [600, 500, 0] := by
    norm_num [solve, panelPairs, flexConsOf, remainingSpace, fixedSum, fixedSizePx,
      convertToPixels, clampFixed, clampFlex, isFlex, distShares, mergeClamped,
      unclampedAt, clampedConsumed, mergeSizes, List.zip, List.zipWith, List.filter]
  refine ⟨?_, hs, ?_⟩
  · norm_num [emitDiagnostic, solveDiagnostic, panelPairs, flexConsOf, fixedSum,
      fixedSizePx, convertToPixels, clampFixed, isFlex, List.zip, List.zipWith,
      List.filter]
  · rw [hs]
    intro x hx
    simp at hx
    rcases hx with h | h | h <;> rw [h] <;> norm_num

end RAP

namespace RAP

/-- Claim C3: within a drag session the delta delivered to `onDrag` is
always `currentPointerPos - anchor` (the anchor is never advanced), so
a run of moves ending at a given position produces the same candidate
layout as a single move to that position; in particular moves at
`delta = 10` then `delta = 25` end exactly as a single `delta = 25`
move. -/
theorem drag_anchor_absolute (anchor : ℚ) (startSizes : ℚ × ℚ)
    (positions : List ℚ) (p : ℚ) :
    (handlePointerMove (handlePointerDown anchor) p).1 = some (p - anchor)
    ∧ (handlePointerMove (handlePointerDown anchor) p).2 = handlePointerDown anchor
    ∧ runMoves (handlePointerDown anchor) startSizes (positions ++ [p])
        = applyDragDelta startSizes (p - anchor)
    ∧ runMoves (handlePointerDown anchor) startSizes [anchor + 10, anchor + 25]
        = runMoves (handlePointerDown anchor) startSizes [anchor + 25] := by
  refine ⟨rfl, rfl, ?_, ?_⟩
  · simp [runMoves, List.foldl_append, handlePointerMove, handlePointerDown]
  · simp [runMoves, handlePointerMove, handlePointerDown]

/-- Claim C4: a candidate size at or below the midpoint of `minSize`
collapses the panel, one above it expands it, the effective size while
collapsed is pinned to `collapsedSizePx`, a repeated identical event
leaves the state unchanged and fires no second notification, and the
notification fires exactly on transitions. -/
theorem collapse_hysteresis (p : CollapsePanel) (st : Bool) (candidate : ℚ) :
    (candidate ≤ p.minPx / 2 → (collapseStep p st candidate).1 = true)
    ∧ (p.minPx / 2 < candidate → (collapseStep p st candidate).1 = false)
    ∧ effectiveSize p true candidate = p.collapsedSizePx
    ∧ collapseStep p (collapseStep p st candidate).1 candidate
        = ((collapseStep p st candidate).1, false)
    ∧ ((collapseStep p st candidate).2 = true ↔ (collapseStep p st candidate).1 ≠ st) := by
  refine ⟨?_, ?_, rfl, ?_, ?_⟩
  · intro h
    simp [collapseStep, collapseThreshold, h]
  · intro h
    simp [collapseStep, collapseThreshold, not_le.mpr h]
  · simp [collapseStep]
  · simp [collapseStep]

/-- Claim C6: the first call of a window invokes synchronously; a call
inside the window invokes nothing and replaces the pending call; the
window elapsing invokes the most recent pending call exactly once (and
nothing when no call is pending); two coalesced calls followed by the
window elapsing execute only the later call — the skipped one never
runs. -/
theorem throttle_leading_trailing {α : Type} (wait : ℕ) (s : ThrottleState α)
    (t t0 t1 t2 t3 : ℕ) (a b : α) :
    throttleStep wait (⟨none, none⟩ : ThrottleState α) (.call t a) = (⟨some t, none⟩, [a])
    ∧ (s.lastInvoke = some t0 → t < t0 + wait →
        throttleStep wait s (.call t a) = (⟨some t0, some a⟩, []))
    ∧ (s.lastInvoke = some t0 → s.pending = some a → t0 + wait ≤ t →
        throttleStep wait s (.elapse t) = (⟨some t, none⟩, [a]))
    ∧ (s.pending = none → (throttleStep wait s (.elapse t)).2 = [])
    ∧ (s.lastInvoke = some t0 → t1 < t0 + wait → t2 < t0 + wait → t0 + wait ≤ t3 →
        (throttleRun wait s [.call t1 a, .call t2 b, .elapse t3]).2 = [b]) := by
  obtain ⟨li, pe⟩ := s
  refine ⟨rfl, ?_, ?_, ?_, ?_⟩
  · intro h1 h2
    simp at h1
    subst h1
    simp [throttleStep, not_le.mpr h2]
  · intro h1 h2 h3
    simp at h1 h2
    subst h1; subst h2
    simp [throttleStep, h3]
  · intro h1
    simp at h1
    subst h1
    cases li with
    | none => rfl
    | some t0 => simp [throttleStep]
  · intro h1 h2 h3 h4
    simp at h1
    subst h1
    simp [throttleRun, throttleStep, not_le.mpr h2, not_le.mpr h3, h4]

/-- Claim C9: an accepted arrow-key press performs one complete
synchronous drag session — `onDragStart`, a single `onDrag` whose
delta is the signed step (10, or 50 with Shift), `onDragEnd` — calls
`preventDefault`, and leaves the dragging flag untouched. -/
theorem keydown_complete_session (direction : Direction) (e : KeyEvent)
    (isDragging : Bool) (h : keyDelta direction e ≠ 0) :
    handleKeyDown direction e isDragging
        = ⟨[.dragStart, .drag (keyDelta direction e), .dragEnd], true, isDragging⟩
    ∧ (keyDelta direction e = keyStep e ∨ keyDelta direction e = -keyStep e)
    ∧ keyStep e = (if e.shiftKey then 50 else 10) := by
  refine ⟨by simp [handleKeyDown, h], ?_, rfl⟩
  rw [keyDelta] at h ⊢
  by_cases hc1 : direction = Direction.horizontal ∧ e.key = KeyName.arrowLeft ∨
      ¬direction = Direction.horizontal ∧ e.key = KeyName.arrowUp
  · rw [if_pos hc1]
    right; rfl
  · rw [if_neg hc1] at h ⊢
    by_cases hc2 : direction = Direction.horizontal ∧ e.key = KeyName.arrowRight ∨
        ¬direction = Direction.horizontal ∧ e.key = KeyName.arrowDown
    · rw [if_pos hc2]
      left; rfl
    · rw [if_neg hc2] at h
      exact absurd rfl h

/-- Claim C10: a key that is not an arrow along the handle's direction
axis invokes none of the drag callbacks, does not call
`preventDefault`, and leaves the dragging flag untouched. -/
theorem keydown_ignored (direction : Direction) (e : KeyEvent)
    (isDragging : Bool) (h : ¬AlignedArrow direction e.key) :
    handleKeyDown direction e isDragging = ⟨[], false, isDragging⟩ := by
  obtain ⟨k, sh⟩ := e
  have hz : keyDelta direction ⟨k, sh⟩ = 0 := by
    cases direction <;> cases k <;>
      first
        | rfl
        | (exact absurd (by simp [AlignedArrow]) h)
  simp [handleKeyDown, hz]

end RAP

namespace RAP

/-- Claim C4, witness: `minSize = 200px`, `collapsedSize = 40px`,
dragged to exactly the 100px midpoint. -/
theorem collapse_hysteresis_witness :
    ((100 : ℚ) ≤ (⟨200, 40⟩ : CollapsePanel).minPx / 2)
    ∧ (collapseStep ⟨200, 40⟩ false 100).1 = true
    ∧ effectiveSize ⟨200, 40⟩ true 100 = 40
    ∧ collapseStep ⟨200, 40⟩ (collapseStep ⟨200, 40⟩ false 100).1 100
        = ((collapseStep ⟨200, 40⟩ false 100).1, false) := by
  have h := collapse_hysteresis ⟨200, 40⟩ false 100
  have h100 : (100 : ℚ) ≤ (⟨200, 40⟩ : CollapsePanel).minPx / 2 := by norm_num
  exact ⟨h100, h.1 h100, h.2.2.1, h.2.2.2.1⟩

/-- Claim C6, witness: `wait = 100`, calls at 10 and 50 after an
invocation at 0, window elapsing at 100 — only the call at 50 runs. -/
theorem throttle_leading_trailing_witness :
    (throttleRun 100 (⟨some 0, none⟩ : ThrottleState ℕ)
        [.call 10 1, .call 50 2, .elapse 100]).2 = [2] :=
  (throttle_leading_trailing 100 ⟨some 0, none⟩ 0 0 10 50 100 1 2).2.2.2.2
    rfl (by decide) (by decide) (by decide)

/-- Claim C9, witness: ArrowRight without Shift on a horizontal
handle. -/
theorem keydown_complete_session_witness :
    keyDelta .horizontal ⟨.arrowRight, false⟩ ≠ 0
    ∧ handleKeyDown .horizontal ⟨.arrowRight, false⟩ false
        = ⟨[.dragStart, .drag (keyDelta .horizontal ⟨.arrowRight, false⟩), .dragEnd],
            true, false⟩ := by
  have h : keyDelta .horizontal ⟨.arrowRight, false⟩ ≠ 0 := by decide
  exact ⟨h, (keydown_complete_session .horizontal ⟨.arrowRight, false⟩ false h).1⟩

/-- Claim C10, witness: ArrowUp on a horizontal handle. -/
theorem keydown_ignored_witness :
    ¬AlignedArrow .horizontal KeyName.arrowUp
    ∧ handleKeyDown .horizontal ⟨.arrowUp, true⟩ false = ⟨[], false, false⟩ := by
  have h : ¬AlignedArrow Direction.horizontal KeyName.arrowUp := by
    simp [AlignedArrow]
  exact ⟨h, keydown_ignored _ ⟨.arrowUp, true⟩ false h⟩

end RAP

namespace RAP

lemma takeWhile_all (p : Char → Bool) (l : List Char) (h : ∀ x ∈ l, p x = true) :
    l.takeWhile p = l ∧ l.dropWhile p = [] := by
  induction l with
  | nil => exact ⟨rfl, rfl⟩
  | cons c cs ih =>
    have hc : p c = true := h c (List.mem_cons_self c cs)
    have ih' := ih (fun x hx => h x (List.mem_cons_of_mem c hx))
    refine ⟨?_, ?_⟩
    · rw [List.takeWhile_cons, hc]
      simp [ih'.1]
    · rw [List.dropWhile_cons, hc]
      simp [ih'.2]

lemma span_exact (p : Char → Bool) (ds : List Char) (c : Char) (fr : List Char)
    (hds : ∀ x ∈ ds, p x = true) (hc : p c = false) :
    (ds ++ c :: fr).takeWhile p = ds ∧ (ds ++ c :: fr).dropWhile p = c :: fr := by
  induction ds with
  | nil =>
    refine ⟨?_, ?_⟩
    · rw [List.nil_append, List.takeWhile_cons, hc]
      simp
    · rw [List.nil_append, List.dropWhile_cons, hc]
      simp
  | cons d ds ih =>
    have hd : p d = true := hds d (List.mem_cons_self d ds)
    have ih' := ih (fun x hx => hds x (List.mem_cons_of_mem d hx))
    refine ⟨?_, ?_⟩
    · rw [List.cons_append, List.takeWhile_cons, hd]
      simp [ih'.1]
    · rw [List.cons_append, List.dropWhile_cons, hd]
      simp [ih'.2]

lemma mem_takeWhile_pred (p : Char → Bool) (l : List Char) :
    ∀ x ∈ l.takeWhile p, p x = true := by
  induction l with
  | nil => intro x hx; simp at hx
  | cons c cs ih =>
    intro x hx
    rw [List.takeWhile_cons] at hx
    by_cases hc : p c = true
    · rw [if_pos hc] at hx
      rcases List.mem_cons.mp hx with h | h
      · rw [h]; exact hc
      · exact ih x h
    · rw [if_neg hc] at hx
      simp at hx

lemma numLitCore_iff (l : List Char) : numLitCore l = true ↔ NumBody l := by
  constructor
  · intro h
    rw [numLitCore] at h
    simp only [Bool.and_eq_true, Bool.or_eq_true, Bool.not_eq_true',
      List.isEmpty_eq_false, List.isEmpty_eq_true, decide_eq_true_eq, isDigits] at h
    obtain ⟨hds, hrest⟩ := h
    have hsplit : l.takeWhile isDigitChar ++ l.dropWhile isDigitChar = l :=
      List.takeWhile_append_dropWhile isDigitChar l
    have hall : ∀ x ∈ l.takeWhile isDigitChar, isDigitChar x = true :=
      mem_takeWhile_pred _ l
    rcases hrest with hnil | ⟨hdot, hfr⟩
    · left
      constructor
      · intro hl
        apply hds
        rw [hl]
        rfl
      · intro c hc
        apply hall
        rw [← hsplit, hnil, List.append_nil] at hc
        exact hc
    · right
      cases hrest2 : l.dropWhile isDigitChar with
      | nil =>
        rw [hrest2] at hdot
        simp at hdot
      | cons r rs =>
        rw [hrest2] at hdot hfr
        simp only [List.headD_cons, List.tail_cons] at hdot hfr
        simp only [Bool.and_eq_true, List.isEmpty_eq_false, List.all_eq_true] at hfr
        refine ⟨l.takeWhile isDigitChar, rs, ⟨hds, hall⟩, ⟨hfr.1, hfr.2⟩, ?_⟩
        conv_lhs => rw [← hsplit]
        rw [hrest2, hdot]
  · intro h
    rcases h with ⟨hne, hall⟩ | ⟨ds, fr, ⟨hdsne, hdsall⟩, ⟨hfrne, hfrall⟩, heq⟩
    · have hsp := takeWhile_all isDigitChar l hall
      rw [numLitCore]
      simp [hsp.1, hsp.2, hne]
    · have hdot : isDigitChar '.' = false := by decide
      have hsp := span_exact isDigitChar ds '.' fr hdsall hdot
      rw [heq, numLitCore]
      simp [hsp.1, hsp.2, hdsne, isDigits, hfrne, List.all_eq_true.mpr hfrall]

end RAP

namespace RAP

lemma NumBody_head_digit (c : Char) (l : List Char) (h : NumBody (c :: l)) :
    isDigitChar c = true := by
  rcases h with ⟨_, hall⟩ | ⟨ds, fr, ⟨hdsne, hdsall⟩, _, heq⟩
  · exact hall c (List.mem_cons_self c l)
  · cases ds with
    | nil => exact absurd rfl hdsne
    | cons d ds' =>
      rw [List.cons_append] at heq
      have : c = d := (List.cons.inj heq).1
      rw [this]
      exact hdsall d (List.mem_cons_self d ds')

lemma isNumLit_iff (l : List Char) : isNumLit l = true ↔ NumLit l := by
  cases l with
  | nil =>
    simp only [isNumLit, List.headD_nil]
    constructor
    · intro h
      rw [if_neg (by decide)] at h
      exact absurd ((numLitCore_iff []).mp h) (by
        rintro (⟨hne, _⟩ | ⟨ds, fr, ⟨hdsne, _⟩, _, heq⟩)
        · exact hne rfl
        · exact hdsne (by
            cases ds with
            | nil => rfl
            | cons d ds' => simp at heq))
    · rintro (hb | ⟨l2, _, heq⟩)
      · rcases hb with ⟨hne, _⟩ | ⟨ds, fr, ⟨hdsne, _⟩, _, heq⟩
        · exact absurd rfl hne
        · exact absurd heq (by
            cases ds with
            | nil => simp
            | cons d ds' => simp)
      · exact absurd heq (by simp)
  | cons c cs =>
    by_cases hc : c = '-'
    · subst hc
      rw [isNumLit]
      simp only [List.headD_cons, List.tail_cons]
      rw [if_true]
      rw [numLitCore_iff]
      constructor
      · intro h
        right
        exact ⟨cs, h, rfl⟩
      · rintro (hb | ⟨l2, hbody, heq⟩)
        · have := NumBody_head_digit _ _ hb
          exact absurd this (by decide)
        · rw [(List.cons.inj heq).2]
          exact hbody
    · rw [isNumLit]
      simp only [List.headD_cons]
      rw [if_neg hc]
      rw [numLitCore_iff]
      constructor
      · intro h
        left
        exact h
      · rintro (hb | ⟨l2, _, heq⟩)
        · exact hb
        · exact absurd (List.cons.inj heq).1 hc

lemma DigitsStr_concat (l : List Char) (h : DigitsStr l) :
    ∃ l0 d, l = l0 ++ [d] ∧ isDigitChar d = true := by
  obtain ⟨hne, hall⟩ := h
  rcases List.eq_nil_or_concat l with hnil | ⟨l0, d, heq⟩
  · exact absurd hnil hne
  · rw [List.concat_eq_append] at heq
    exact ⟨l0, d, heq, hall d (by rw [heq]; simp)⟩

lemma NumLit_concat (l : List Char) (h : NumLit l) :
    ∃ l0 d, l = l0 ++ [d] ∧ isDigitChar d = true := by
  have body : ∀ t, NumBody t → ∃ t0 d, t = t0 ++ [d] ∧ isDigitChar d = true := by
    intro t ht
    rcases ht with hd | ⟨ds, fr, _, hfr, heq⟩
    · exact DigitsStr_concat t hd
    · obtain ⟨f0, d, hfeq, hdig⟩ := DigitsStr_concat fr hfr
      refine ⟨ds ++ '.' :: f0, d, ?_, hdig⟩
      rw [heq, hfeq]
      simp
  rcases h with hb | ⟨l2, hb, heq⟩
  · exact body l hb
  · obtain ⟨t0, d, heq2, hdig⟩ := body l2 hb
    refine ⟨'-' :: t0, d, ?_, hdig⟩
    rw [heq, heq2]
    simp

end RAP

namespace RAP

lemma px_suffix_body (cs : List Char) (h : cs.reverse.take 2 = ['x', 'p']) :
    cs = (cs.reverse.drop 2).reverse ++ ['p', 'x'] := by
  have hsplit := List.take_append_drop 2 cs.reverse
  rw [h] at hsplit
  conv_lhs => rw [← List.reverse_reverse cs, ← hsplit]
  rw [List.reverse_append]
  rfl

lemma px_suffix_of (t : List Char) :
    (t ++ ['p', 'x']).reverse.take 2 = ['x', 'p']
      ∧ ((t ++ ['p', 'x']).reverse.drop 2).reverse = t := by
  rw [List.reverse_append]
  constructor
  · rfl
  · rw [show (['p', 'x'].reverse : List Char) = ['x', 'p'] from rfl]
    rw [show (['x', 'p'] ++ t.reverse : List Char).drop 2 = t.reverse from rfl]
    exact List.reverse_reverse t

lemma pct_suffix_body (cs : List Char) (h : cs.reverse.take 1 = ['%']) :
    cs = (cs.reverse.drop 1).reverse ++ ['%'] := by
  have hsplit := List.take_append_drop 1 cs.reverse
  rw [h] at hsplit
  conv_lhs => rw [← List.reverse_reverse cs, ← hsplit]
  rw [List.reverse_append]
  rfl

lemma pct_suffix_of (t : List Char) :
    (t ++ ['%']).reverse.take 1 = ['%']
      ∧ ((t ++ ['%']).reverse.drop 1).reverse = t := by
  rw [List.reverse_append]
  constructor
  · rfl
  · rw [show (['%'].reverse : List Char) = ['%'] from rfl]
    rw [show (['%'] ++ t.reverse : List Char).drop 1 = t.reverse from rfl]
    exact List.reverse_reverse t

lemma numlit_last_digit (cs : List Char) (h : isNumLit cs = true) :
    ∃ (t0 : List Char) (d : Char),
      cs.reverse = d :: t0.reverse ∧ isDigitChar d = true := by
  obtain ⟨t0, d, heq, hdig⟩ := NumLit_concat cs ((isNumLit_iff cs).mp h)
  refine ⟨t0, d, ?_, hdig⟩
  rw [heq, List.reverse_append]
  rfl

lemma parse_bare (s : String) (h : isNumLit s.data = true) :
    parseSize (some s) = .ok ⟨numValue s.data, .px, s ++ "px"⟩ := by
  obtain ⟨t0, d, hrev, hdig⟩ := numlit_last_digit s.data h
  have hA : ¬(s.data = "auto".data) := by
    intro hA
    rw [hA] at h
    exact absurd h (by decide)
  have hB : ¬(s.data = ['*']) := by
    intro hB
    rw [hB] at h
    exact absurd h (by decide)
  have hC : ¬(s.data.reverse.take 2 = ['x', 'p']) := by
    intro hC
    rw [hrev] at hC
    rw [List.take_succ_cons] at hC
    have : d = 'x' := (List.cons.inj hC).1
    rw [this] at hdig
    exact absurd hdig (by decide)
  have hE : ¬(s.data.reverse.take 1 = ['%']) := by
    intro hE
    rw [hrev] at hE
    rw [List.take_succ_cons] at hE
    have : d = '%' := (List.cons.inj hE).1
    rw [this] at hdig
    exact absurd hdig (by decide)
  simp only [parseSize]
  rw [if_neg hA, if_neg hB, if_neg hC, if_neg hE, if_pos h]

end RAP

namespace RAP

lemma parse_ok_of_grammar (s : String) (h : MatchesGrammar s) :
    ∃ p, parseSize (some s) = .ok p := by
  rcases h with hA | hB | ⟨t, hnl, ht | ht | ht⟩
  · refine ⟨⟨0, .auto, s⟩, ?_⟩
    simp only [parseSize]
    rw [if_pos hA]
  · have hA : ¬(s.data = "auto".data) := by
      rw [hB]; decide
    refine ⟨⟨0, .auto, s⟩, ?_⟩
    simp only [parseSize]
    rw [if_neg hA, if_pos hB]
  · -- bare number
    have h' : isNumLit s.data = true := by
      rw [ht]; exact (isNumLit_iff t).mpr hnl
    exact ⟨_, parse_bare s h'⟩
  · -- t ++ "px"
    have hC : s.data.reverse.take 2 = ['x', 'p'] := by
      rw [ht]; exact (px_suffix_of t).1
    have hbody : (s.data.reverse.drop 2).reverse = t := by
      rw [ht]; exact (px_suffix_of t).2
    have hA : ¬(s.data = "auto".data) := by
      intro hA
      rw [hA] at hC
      exact absurd hC (by decide)
    have hB : ¬(s.data = ['*']) := by
      intro hB
      rw [hB] at hC
      exact absurd hC (by decide)
    have hD : isNumLit ((s.data.reverse.drop 2).reverse) = true := by
      rw [hbody]; exact (isNumLit_iff t).mpr hnl
    refine ⟨⟨numValue ((s.data.reverse.drop 2).reverse), .px, s⟩, ?_⟩
    simp only [parseSize]
    rw [if_neg hA, if_neg hB, if_pos hC, if_pos hD]
  · -- t ++ "%"
    have hE : s.data.reverse.take 1 = ['%'] := by
      rw [ht]; exact (pct_suffix_of t).1
    have hbody : (s.data.reverse.drop 1).reverse = t := by
      rw [ht]; exact (pct_suffix_of t).2
    have hA : ¬(s.data = "auto".data) := by
      intro hA
      rw [hA] at hE
      exact absurd hE (by decide)
    have hB : ¬(s.data = ['*']) := by
      intro hB
      rw [hB] at hE
      exact absurd hE (by decide)
    have hC : ¬(s.data.reverse.take 2 = ['x', 'p']) := by
      intro hC
      rcases hx : s.data.reverse with _ | ⟨c, rest⟩
      · rw [hx] at hE
        exact absurd hE (by decide)
      · rw [hx] at hC hE
        rw [List.take_succ_cons] at hC hE
        have h1 : c = '%' := (List.cons.inj hE).1
        have h2 : c = 'x' := (List.cons.inj hC).1
        rw [h1] at h2
        exact absurd h2 (by decide)
    have hF : isNumLit ((s.data.reverse.drop 1).reverse) = true := by
      rw [hbody]; exact (isNumLit_iff t).mpr hnl
    refine ⟨⟨numValue ((s.data.reverse.drop 1).reverse), .percent, s⟩, ?_⟩
    simp only [parseSize]
    rw [if_neg hA, if_neg hB, if_neg hC, if_pos hE, if_pos hF]

lemma parse_grammar_of_ok (s : String) (p : ParsedSize)
    (h : parseSize (some s) = .ok p) : MatchesGrammar s := by
  rw [MatchesGrammar]
  simp only [parseSize] at h
  by_cases hA : s.data = "auto".data
  · exact Or.inl hA
  rw [if_neg hA] at h
  by_cases hB : s.data = ['*']
  · exact Or.inr (Or.inl hB)
  rw [if_neg hB] at h
  refine Or.inr (Or.inr ?_)
  by_cases hC : s.data.reverse.take 2 = ['x', 'p']
  · rw [if_pos hC] at h
    by_cases hD : isNumLit ((s.data.reverse.drop 2).reverse) = true
    · refine ⟨(s.data.reverse.drop 2).reverse, (isNumLit_iff _).mp hD, Or.inr (Or.inl ?_)⟩
      exact px_suffix_body s.data hC
    · rw [if_neg hD] at h
      exact absurd h (by simp)
  rw [if_neg hC] at h
  by_cases hE : s.data.reverse.take 1 = ['%']
  · rw [if_pos hE] at h
    by_cases hF : isNumLit ((s.data.reverse.drop 1).reverse) = true
    · refine ⟨(s.data.reverse.drop 1).reverse, (isNumLit_iff _).mp hF, Or.inr (Or.inr ?_)⟩
      exact pct_suffix_body s.data hE
    · rw [if_neg hF] at h
      exact absurd h (by simp)
  rw [if_neg hE] at h
  by_cases hG : isNumLit s.data = true
  · exact ⟨s.data, (isNumLit_iff _).mp hG, Or.inl rfl⟩
  · rw [if_neg hG] at h
    exact absurd h (by simp)

lemma parse_total (s : String) :
    (∃ p, parseSize (some s) = .ok p)
      ∨ parseSize (some s) = .error (.invalidSizeFormat s) := by
  simp only [parseSize]
  by_cases hA : s.data = "auto".data
  · rw [if_pos hA]; exact Or.inl ⟨_, rfl⟩
  rw [if_neg hA]
  by_cases hB : s.data = ['*']
  · rw [if_pos hB]; exact Or.inl ⟨_, rfl⟩
  rw [if_neg hB]
  by_cases hC : s.data.reverse.take 2 = ['x', 'p']
  · rw [if_pos hC]
    by_cases hD : isNumLit ((s.data.reverse.drop 2).reverse) = true
    · rw [if_pos hD]; exact Or.inl ⟨_, rfl⟩
    · rw [if_neg hD]; exact Or.inr rfl
  rw [if_neg hC]
  by_cases hE : s.data.reverse.take 1 = ['%']
  · rw [if_pos hE]
    by_cases hF : isNumLit ((s.data.reverse.drop 1).reverse) = true
    · rw [if_pos hF]; exact Or.inl ⟨_, rfl⟩
    · rw [if_neg hF]; exact Or.inr rfl
  rw [if_neg hE]
  by_cases hG : isNumLit s.data = true
  · rw [if_pos hG]; exact Or.inl ⟨_, rfl⟩
  · rw [if_neg hG]; exact Or.inr rfl

end RAP

namespace RAP

/-- Claim C7: `parseSize` fails with `InvalidSizeFormat` exactly on the
strings matching none of `<number>px`, `<number>%`, `auto`, `*`, or a
bare number; a bare numeric string parses as pixels (with the implicit
`px` recorded), with a development-only warning and none in
production; absent input parses to `auto` with value 0. -/
theorem parse_invalid_exact (s : String) :
    (parseSize (some s) = .error (.invalidSizeFormat s) ↔ ¬MatchesGrammar s)
    ∧ (isNumLit s.data = true →
        parseSize (some s) = .ok ⟨numValue s.data, .px, s ++ "px"⟩)
    ∧ parseSize (none : Option String) = .ok ⟨0, .auto, "auto"⟩
    ∧ parseWarns false (some s) = false
    ∧ (isNumLit s.data = true → parseWarns true (some s) = true) := by
  refine ⟨⟨?_, ?_⟩, parse_bare s, rfl, rfl, ?_⟩
  · intro herr hg
    obtain ⟨p, hok⟩ := parse_ok_of_grammar s hg
    rw [hok] at herr
    exact Except.noConfusion herr
  · intro hng
    rcases parse_total s with ⟨p, hok⟩ | herr
    · exact absurd (parse_grammar_of_ok s p hok) hng
    · exact herr
  · intro h
    simp [parseWarns, h]

/-- Claim C7, witness: the bare numeric string `"100"`. -/
theorem parse_invalid_exact_witness :
    isNumLit ("100" : String).data = true
    ∧ parseSize (some "100") = .ok ⟨numValue ("100" : String).data, .px, "100" ++ "px"⟩
    ∧ parseWarns true (some "100") = true
    ∧ parseWarns false (some "100") = false := by
  have h := parse_invalid_exact "100"
  have hn : isNumLit ("100" : String).data = true := by decide
  exact ⟨hn, h.2.1 hn, h.2.2.2.2 hn, h.2.2.2.1⟩

/-- Claim C8: `formatSize` is a left inverse of `parseSize` on
`"123px"`, `"45%"` and `"auto"`, and maps a non-finite value to
`"auto"` for every unit. -/
theorem format_parse_roundtrip :
    (match parseSize (some "123px") with
      | .ok p => formatSize (some p.value) p.unit
      | .error _ => "") = "123px"
    ∧ (match parseSize (some "45%") with
      | .ok p => formatSize (some p.value) p.unit
      | .error _ => "") = "45%"
    ∧ (match parseSize (some "auto") with
      | .ok p => formatSize (some p.value) p.unit
      | .error _ => "") = "auto"
    ∧ ∀ u : SizeUnit, formatSize none u = "auto" := by
  refine ⟨?_, ?_, ?_, ?_⟩
  · have h : parseSize (some "123px") = .ok ⟨123, .px, "123px"⟩ := by decide
    rw [h]
    norm_num [formatSize, renderRat]
    decide
  · have h : parseSize (some "45%") = .ok ⟨45, .percent, "45%"⟩ := by decide
    rw [h]
    norm_num [formatSize, renderRat]
    decide
  · have h : parseSize (some "auto") = .ok ⟨0, .auto, "auto"⟩ := by decide
    rw [h]
    rfl
  · intro u
    cases u <;> rfl

end RAP
